import Mathlib

/-!
# Verification of `CallCenterSimulation.py`

A shallow embedding of the SimPy-based call-center discrete-event
simulation.  The program simulates an M/M/c queue: an arrival generator
(`setup`) spawns customer processes; each customer requests one unit of a
FIFO resource pool of `num_agents` agents, holds it for an exponential
service duration, and records its wait and busy interval.  `run_scenario`
runs 30 independently seeded replications, computes four metrics per
replication, and aggregates mean / population standard deviation.

Modelling choices, faithful to the source:

* The SimPy event loop is an explicit event queue ordered by
  (time, insertion sequence number); `env.run(until=SIM_HOURS*60)`
  processes events strictly before minute 480 and stops (with the clock
  set to 480) as soon as the earliest pending event is at or past 480.
* `random.expovariate(lambd)` computes `-log(1 - random()) / lambd` and
  raises `ZeroDivisionError` when `lambd = 0`.  The irrational radicand
  `-log(1 - u)` of each draw is abstracted as a value of a caller-supplied
  stream `stream : Nat -> Rat` of draws, consumed in program order; an
  exponential draw divides the next stream value by the rate.  Every
  theorem quantifies over the stream (real draws are nonnegative, which
  appears as an explicit hypothesis where needed).
* Exceptions (`ValueError` from `simpy.Resource` on capacity <= 0,
  `ValueError` from `Timeout` on negative delay, `ZeroDivisionError`,
  `statistics.StatisticsError`) are an `Except` error type.  A fuel
  parameter bounds the number of processed events; the Python loop has no
  such bound, so theorems are stated on runs that finish within fuel.
* Process resumptions that SimPy schedules at the current instant
  (a granted request, the start of the `serve` sub-process) are applied
  synchronously; all recorded metrics are order-insensitive aggregates,
  so this does not affect any claim.
-/

namespace CallCenterSim

/-- `RANDOM_SEED = 42` (line 23 of the source). -/
def RANDOM_SEED : Nat := 42

/-- `SIM_HOURS = 8` (line 24 of the source). -/
def SIM_HOURS : Rat := 8

/-- `MEAN_SERVICE_MINUTES = 5` (line 25 of the source). -/
def MEAN_SERVICE_MINUTES : Rat := 5

/-- The simulation horizon in minutes, `SIM_HOURS * 60 = 480`, the
`until` argument of `env.run` (line 66). -/
def horizonMinutes : Rat := SIM_HOURS * 60

/-- Default replication count of `run_scenario` (line 58). -/
def REPLICATIONS : Nat := 30

/-- The suspended-process continuations that can sit in the event queue:
the first entry of the `setup` generator, a later resumption of `setup`
after an inter-arrival timeout (which spawns a customer), the start of a
spawned `customer` process, and the end-of-service timeout of a customer
(carrying the customer id and its service start time). -/
inductive EvKind where
  | setupFirst : EvKind
  | setupWake : EvKind
  | custStart : Nat → EvKind
  | serviceEnd : Nat → Rat → EvKind
  deriving DecidableEq, Repr

/-- A scheduled event: its virtual time, a global insertion sequence
number (SimPy's event id, breaking ties deterministically), and the
continuation to run. -/
structure Ev where
  time : Rat
  seq : Nat
  kind : EvKind
  deriving DecidableEq, Repr

/-- An entry of the resource pool's FIFO wait queue: the id of the
waiting customer and its arrival time. -/
structure Waiter where
  id : Nat
  arrival : Rat
  deriving DecidableEq, Repr

/-- The whole mutable state of one replication: the clock, the event
queue, the resource pool (`simpy.Resource(env, capacity=num_agents)`:
in-use count plus FIFO wait queue), the metric lists `wait_times` and
`call_center.busy_times`, the arrival counter `customer_id`, the index of
the next random draw, and the two `CallCenter` fields
`total_busy_time` / `last_event_time` that lines 31-32 set to 0. -/
structure St where
  now : Rat
  nextSeq : Nat
  queue : List Ev
  inUse : Nat
  waitQ : List Waiter
  waitTimes : List Rat
  busyTimes : List (Rat × Rat)
  nextId : Nat
  drawIdx : Nat
  totalBusyTime : Rat
  lastEventTime : Rat
  deriving DecidableEq, Repr

/-- Is this continuation an end-of-service timeout?  (Used to relate the
in-use count to pending completions.) -/
def isSE : EvKind → Bool
  | .serviceEnd _ _ => true
  | _ => false

/-- Number of pending end-of-service events. -/
def countSE (l : List Ev) : Nat := l.countP (fun e => isSE e.kind)

/-- Priority order of the event queue: earlier time first, ties broken by
insertion sequence number (SimPy orders its heap by (time, priority, event
id); all events here have equal priority and ids increase in insertion
order). -/
def evBefore (a b : Ev) : Prop :=
  a.time < b.time ∨ (a.time = b.time ∧ a.seq ≤ b.seq)

instance (a b : Ev) : Decidable (evBefore a b) := by
  unfold evBefore; infer_instance

/-- Extract the highest-priority pending event, returning it together
with the remaining queue. -/
def popMin : List Ev → Option (Ev × List Ev)
  | [] => none
  | e :: es =>
    match popMin es with
    | none => some (e, [])
    | some (m, rest) => if evBefore e m then some (e, es) else some (m, e :: rest)

/-- The exceptions the Python program can raise, plus two that name
specified behaviour: `configError` is the up-front configuration failure
that section 7 of the design prescribes (the code never produces it), and
`outOfFuel` marks a run that did not finish within the fuel bound.
`valueErrorCapacity` is the `ValueError` that `simpy.Resource` raises on
`capacity <= 0`; `valueErrorNegativeDelay` is the `ValueError` that
`simpy.Timeout` raises on a negative delay; `zeroDivisionError` comes
from `random.expovariate(0)`; `statisticsError` from
`statistics.mean([])`. -/
inductive Err where
  | valueErrorCapacity
  | valueErrorNegativeDelay
  | zeroDivisionError
  | statisticsError
  | configError
  | outOfFuel
  deriving DecidableEq, Repr

/-- `random.expovariate(lambd)`: returns `-log(1 - random()) / lambd`,
raising `ZeroDivisionError` when `lambd = 0`.  The nonnegative radicand
`-log(1 - u)` is supplied by the draw stream as `x`. -/
def expovariate (lambd x : Rat) : Except Err Rat :=
  if lambd = 0 then .error .zeroDivisionError else .ok (x / lambd)

/-- Insert an event at virtual time `t` with a fresh sequence number. -/
def schedule (t : Rat) (k : EvKind) (s : St) : St :=
  { s with queue := s.queue ++ [⟨t, s.nextSeq, k⟩], nextSeq := s.nextSeq + 1 }

/-- `env.timeout(d)` for the process continuing as `k`: raises
`ValueError` on a negative delay, otherwise schedules the resumption at
`now + d`. -/
def timeout (d : Rat) (k : EvKind) (s : St) : Except Err St :=
  if d < 0 then .error .valueErrorNegativeDelay
  else .ok (schedule (s.now + d) k s)

/-- The loop body of `setup` (lines 52-54): while `env.now < 480`, draw
an inter-arrival gap `expovariate(arrival_rate_per_hour / 60)` and
suspend for it.  (The spawning of a customer on resumption is in
`execEvent`; this is the check-draw-timeout tail shared by the first
entry and every later iteration.) -/
def setupTail (rate : Rat) (stream : Nat → Rat) (s : St) : Except Err St :=
  if s.now < horizonMinutes then
    match expovariate (rate / 60) (stream s.drawIdx) with
    | .error err => .error err
    | .ok d => timeout d .setupWake { s with drawIdx := s.drawIdx + 1 }
  else .ok s

/-- A customer that has just been granted an agent: `call_center.serve`
draws `expovariate(1.0 / MEAN_SERVICE_MINUTES)` and suspends for that
service duration; the resumption (which will record the busy interval
and release the agent) carries the customer id and the service start
time `env.now`. -/
def beginService (stream : Nat → Rat) (cid : Nat) (s : St) : Except Err St :=
  match expovariate (1 / MEAN_SERVICE_MINUTES) (stream s.drawIdx) with
  | .error err => .error err
  | .ok d => timeout d (.serviceEnd cid s.now) { s with drawIdx := s.drawIdx + 1 }

/-- Run the continuation of event `e` on state `s0` (whose queue already
had `e` removed).  The clock is advanced to the event time first.

* `setupFirst`: the generator's initial entry — loop check, draw, timeout.
* `setupWake`: an inter-arrival timeout fired — `env.process(customer(...))`
  spawns customer `nextId` at the current instant, `customer_id += 1`,
  then the loop continues (check, draw, timeout).
* `custStart` (lines 40-45): record `arrival_time = env.now`, request an
  agent.  A free agent is granted at once (`wait = env.now - arrival_time`
  is appended to `wait_times` and service begins); otherwise the customer
  joins the tail of the FIFO wait queue.
* `serviceEnd` (lines 47-48 and the `with`-block exit): append
  `(start_busy, end_busy)` to `busy_times`, then release the agent —
  if the wait queue is non-empty its head is granted the freed agent
  (appending its wait and starting its service), otherwise the in-use
  count drops. -/
def execEvent (cap : Nat) (rate : Rat) (stream : Nat → Rat) (e : Ev) (s0 : St) :
    Except Err St :=
  let s := { s0 with now := e.time }
  match e.kind with
  | .setupFirst => setupTail rate stream s
  | .setupWake =>
      let s1 := schedule s.now (.custStart s.nextId) s
      setupTail rate stream { s1 with nextId := s1.nextId + 1 }
  | .custStart cid =>
      let arrival := s.now
      if s.inUse < cap then
        beginService stream cid
          { s with waitTimes := s.waitTimes ++ [s.now - arrival],
                   inUse := s.inUse + 1 }
      else
        .ok { s with waitQ := s.waitQ ++ [⟨cid, arrival⟩] }
  | .serviceEnd _cid startBusy =>
      let s1 := { s with busyTimes := s.busyTimes ++ [(startBusy, s.now)] }
      match s1.waitQ with
      | [] => .ok { s1 with inUse := s1.inUse - 1 }
      | w :: ws =>
          beginService stream w.id
            { s1 with waitQ := ws,
                      waitTimes := s1.waitTimes ++ [s1.now - w.arrival] }

/-- Result of one scheduler step: the run is over (`done`, carrying the
final state) or continues (`cont`). -/
inductive StepRes where
  | done : St → StepRes
  | cont : St → StepRes
  deriving DecidableEq, Repr

/-- One iteration of the SimPy event loop under `env.run(until=480)`:
take the earliest pending event; if none is left the loop ends, and if
its time has reached the horizon the stop event fires first (the clock
jumps to 480 and the remaining events are never executed); otherwise the
event is executed. -/
def simStep (cap : Nat) (rate : Rat) (stream : Nat → Rat) (s : St) :
    Except Err StepRes :=
  match popMin s.queue with
  | none => .ok (.done s)
  | some (e, rest) =>
    if horizonMinutes ≤ e.time then .ok (.done { s with now := horizonMinutes })
    else
      match execEvent cap rate stream e { s with queue := rest } with
      | .error err => .error err
      | .ok u => .ok (.cont u)

/-- The event loop, driven by a fuel bound on the number of processed
events (the Python loop is unbounded; with fuel exhausted the run is
reported as `outOfFuel`, never as a normal result). -/
def runSim (cap : Nat) (rate : Rat) (stream : Nat → Rat) : Nat → St → Except Err St
  | 0, _ => .error .outOfFuel
  | fuel + 1, s =>
    match simStep cap rate stream s with
    | .error err => .error err
    | .ok (.done t) => .ok t
    | .ok (.cont u) => runSim cap rate stream fuel u

/-- The state right after lines 62-65: a fresh environment whose only
pending event is the start of the `setup` process, an idle pool, empty
metric lists, and the two always-zero `CallCenter` counters. -/
def initState : St :=
  { now := 0, nextSeq := 1, queue := [⟨0, 0, .setupFirst⟩], inUse := 0,
    waitQ := [], waitTimes := [], busyTimes := [], nextId := 0, drawIdx := 0,
    totalBusyTime := 0, lastEventTime := 0 }

/-- The per-replication summary of lines 75-80. -/
structure RepResult where
  avg_wait : Rat
  utilization : Rat
  num_served : Nat
  avg_queue_len : Rat
  deriving DecidableEq, Repr

/-- `statistics.mean`: the arithmetic mean, sum divided by count. -/
def listMean (vals : List Rat) : Rat := vals.sum / (vals.length : Rat)

/-- Lines 71-72: `total_busy_time = sum(end - start for start, end in
call_center.busy_times)` and `utilization = total_busy_time /
(num_agents * SIM_HOURS * 60)` — a function of the `busy_times` list
alone (and the constants). -/
def utilizationOfBusy (cap : Nat) (busy : List (Rat × Rat)) : Rat :=
  (busy.map (fun p => p.2 - p.1)).sum / ((cap : Rat) * SIM_HOURS * 60)

/-- The metric block, lines 68-73, applied to the state left by
`env.run`. -/
def computeMetrics (cap : Nat) (s : St) : RepResult :=
  { avg_wait := if s.waitTimes.isEmpty then 0 else listMean s.waitTimes,
    utilization := utilizationOfBusy cap s.busyTimes,
    num_served := s.waitTimes.length,
    avg_queue_len := if s.waitTimes.isEmpty then 0
                     else s.waitTimes.sum / SIM_HOURS }

/-- One replication, lines 61-80: seed (the stream stands for the seeded
draws), build the environment and the `CallCenter` — whose
`simpy.Resource` constructor raises `ValueError` when the capacity is
not positive — run the event loop to the horizon, and compute the four
metrics. -/
def runReplication (cap : Nat) (rate : Rat) (stream : Nat → Rat) (fuel : Nat) :
    Except Err RepResult :=
  if cap = 0 then .error .valueErrorCapacity
  else
    match runSim cap rate stream fuel initState with
    | .error err => .error err
    | .ok t => .ok (computeMetrics cap t)

/-- The replication loop of lines 60-80 over a list of replication
indices: replication `r` reseeds the global generator with
`RANDOM_SEED + r`, so its draws are the stream `rng (RANDOM_SEED + r)`.
An exception in any replication aborts the whole scenario. -/
def runReps (rng : Nat → Nat → Rat) (cap : Nat) (rate : Rat) (fuel : Nat) :
    List Nat → Except Err (List RepResult)
  | [] => .ok []
  | r :: rs =>
    match runReplication cap rate (rng (RANDOM_SEED + r)) fuel with
    | .error err => .error err
    | .ok v =>
      match runReps rng cap rate fuel rs with
      | .error err => .error err
      | .ok l => .ok (v :: l)

/-- The population variance with divisor `N` (not `N - 1`):
`statistics.pstdev(vals)` is the square root of this value.  The square
root of a rational is irrational in general, so the aggregate carries
the radicand; the divisor-`N` content of `pstdev` lives here. -/
def pvariance (vals : List Rat) : Rat :=
  (vals.map (fun x => (x - listMean vals) ^ 2)).sum / (vals.length : Rat)

/-- The aggregate of lines 82-87: per metric, the mean and the
population-standard-deviation radicand across replications. -/
structure Agg where
  avg_wait_mean : Rat
  avg_wait_pvar : Rat
  utilization_mean : Rat
  utilization_pvar : Rat
  num_served_mean : Rat
  num_served_pvar : Rat
  avg_queue_len_mean : Rat
  avg_queue_len_pvar : Rat
  deriving DecidableEq, Repr

/-- Lines 82-87.  `statistics.mean` raises `StatisticsError` on an empty
sample (unreachable for the default of 30 replications). -/
def aggregate (results : List RepResult) : Except Err Agg :=
  if results.isEmpty then .error .statisticsError
  else .ok
    { avg_wait_mean := listMean (results.map (·.avg_wait)),
      avg_wait_pvar := pvariance (results.map (·.avg_wait)),
      utilization_mean := listMean (results.map (·.utilization)),
      utilization_pvar := pvariance (results.map (·.utilization)),
      num_served_mean := listMean (results.map (fun v => (v.num_served : Rat))),
      num_served_pvar := pvariance (results.map (fun v => (v.num_served : Rat))),
      avg_queue_len_mean := listMean (results.map (·.avg_queue_len)),
      avg_queue_len_pvar := pvariance (results.map (·.avg_queue_len)) }

/-- `run_scenario(num_agents, arrival_rate_per_hour, replications)`
(lines 58-87): run the replications for indices `0 .. replications - 1`
in order, then aggregate. -/
def run_scenario (rng : Nat → Nat → Rat) (num_agents : Nat) (rate : Rat)
    (fuel replications : Nat) : Except Err Agg :=
  match runReps rng num_agents rate fuel (List.range replications) with
  | .error err => .error err
  | .ok results => aggregate results

/-! ## The replication invariant -/

/-- Facts that hold of every state a replication passes through and of
the final state returned by the event loop: the pool never exceeds its
capacity and its wait queue is populated only at full capacity; grants
and completions balance (`wait_times` counts granted customers,
`busy_times` completed ones, and the difference is exactly the in-use
count, which equals the number of pending end-of-service events); the
clock stays in `[0, 480]`; arrivals of queued customers are in the past;
recorded waits are nonnegative; every recorded busy interval starts at a
nonnegative time, ends strictly before the horizon and spans exactly one
service draw; and the two unused `CallCenter` counters stay zero. -/
structure SimInvCore (cap : Nat) (stream : Nat → Rat) (s : St) : Prop where
  inUse_le : s.inUse ≤ cap
  waitQ_full : s.waitQ ≠ [] → s.inUse = cap
  count_eq : s.waitTimes.length = s.busyTimes.length + s.inUse
  inUse_se : s.inUse = countSE s.queue
  now_nonneg : 0 ≤ s.now
  now_le : s.now ≤ horizonMinutes
  se_shape : ∀ e ∈ s.queue, ∀ cid sb, e.kind = .serviceEnd cid sb →
    0 ≤ sb ∧ ∃ k, e.time = sb + stream k / (1 / MEAN_SERVICE_MINUTES)
  waitQ_arr : ∀ w ∈ s.waitQ, 0 ≤ w.arrival ∧ w.arrival ≤ s.now
  waits_nonneg : ∀ w ∈ s.waitTimes, 0 ≤ w
  busy_shape : ∀ p ∈ s.busyTimes, 0 ≤ p.1 ∧ p.2 < horizonMinutes ∧
    ∃ k, p.2 = p.1 + stream k / (1 / MEAN_SERVICE_MINUTES)
  tbt_zero : s.totalBusyTime = 0
  lastEv_zero : s.lastEventTime = 0

/-- The full invariant maintained across scheduler steps additionally
records that no pending event lies in the past (the clock is monotone).
The final `now := 480` jump of the stop event abandons this field, hence
the split. -/
structure SimInv (cap : Nat) (stream : Nat → Rat) (s : St)
    extends SimInvCore cap stream s : Prop where
  ev_future : ∀ e ∈ s.queue, s.now ≤ e.time

/-- The states a replication passes through: reflexive-transitive closure
of continuing scheduler steps. -/
inductive Reaches (cap : Nat) (rate : Rat) (stream : Nat → Rat) : St → St → Prop where
  | refl (s : St) : Reaches cap rate stream s s
  | tail {s t u : St} : Reaches cap rate stream s t →
      simStep cap rate stream t = .ok (.cont u) → Reaches cap rate stream s u

/-- What one scheduler step may do to the pool's wait queue: leave it
alone, append one waiter at the tail, or remove exactly the head — and
when the head is removed, that waiter's wait duration (grant time minus
arrival time) is the one appended to `wait_times`.  This is the FIFO
discipline of `simpy.Resource`. -/
def fifoStep (s u : St) : Prop :=
  u.waitQ = s.waitQ ∨
  (∃ w, u.waitQ = s.waitQ ++ [w]) ∨
  (∃ w, s.waitQ = w :: u.waitQ ∧ u.waitTimes = s.waitTimes ++ [u.now - w.arrival])

/-! ## Concrete fixtures

Small draw streams whose runs finish in a handful of events, with their
final states computed by the event loop.  Recall that a stream value is
the radicand of an exponential draw: with `rate = 60` calls/hour the
inter-arrival gap equals the stream value, and a service duration is
five times the stream value. -/

/-- Every draw is 1000: the first arrival would occur at minute 1000,
past the 480-minute horizon, so the replication serves nobody. -/
def probeStream : Nat → Rat := fun _ => 1000

/-- First arrival at minute 10, service draw 1 (a 5-minute service that
finishes at minute 15), no further arrivals before the horizon. -/
def richStream : Nat → Rat := fun i => if i = 0 then 10 else if i = 2 then 1 else 1000

/-- First arrival at minute 479, one minute before the horizon; its
5-minute service would end at minute 484, after the horizon. -/
def cutoffStream : Nat → Rat := fun i => if i = 0 then 479 else if i = 1 then 100 else 1

/-- First arrival at minute 10 with a service draw of exactly 0 (the
value `random.expovariate` returns when `random()` yields 0.0): the
service starts and ends at the same instant. -/
def zeroServiceStream : Nat → Rat :=
  fun i => if i = 0 then 10 else if i = 2 then 0 else 1000

/-- Final state of the `richStream` replication: one customer served,
wait 0, busy from minute 10 to 15; the generator's next wake-up at
minute 1010 is still pending when the run stops. -/
def richFinal : St :=
  { now := 480, nextSeq := 5, queue := [⟨1010, 3, .setupWake⟩], inUse := 0,
    waitQ := [], waitTimes := [0], busyTimes := [(10, 15)], nextId := 1,
    drawIdx := 3, totalBusyTime := 0, lastEventTime := 0 }

/-- Final state of the `cutoffStream` replication: the customer was
granted an agent at minute 479 (its wait is recorded) but its
end-of-service event at minute 484 is abandoned in the queue: no busy
interval is recorded and the agent is still held. -/
def cutoffFinal : St :=
  { now := 480, nextSeq := 5,
    queue := [⟨579, 3, .setupWake⟩, ⟨484, 4, .serviceEnd 0 479⟩], inUse := 1,
    waitQ := [], waitTimes := [0], busyTimes := [], nextId := 1,
    drawIdx := 3, totalBusyTime := 0, lastEventTime := 0 }

/-- Final state of the `zeroServiceStream` replication: the recorded
busy interval is `(10, 10)` — it starts and ends at the same time. -/
def zeroServiceFinal : St :=
  { now := 480, nextSeq := 5, queue := [⟨1010, 3, .setupWake⟩], inUse := 0,
    waitQ := [], waitTimes := [0], busyTimes := [(10, 10)], nextId := 1,
    drawIdx := 3, totalBusyTime := 0, lastEventTime := 0 }

/-- The metrics of a replication that serves nobody. -/
def probeRep : RepResult :=
  { avg_wait := 0, utilization := 0, num_served := 0, avg_queue_len := 0 }

/-! ## The claims, as stated -/

/-- Claim C1 as stated, at given parameters: a finished replication has
no pending events, and every customer that entered service (recorded a
wait) ran to completion (recorded a busy interval). -/
def horizonCompletionClaim (cap : Nat) (rate : Rat) (stream : Nat → Rat)
    (fuel : Nat) : Prop :=
  ∀ t, runSim cap rate stream fuel initState = .ok t →
    t.queue = [] ∧ t.waitTimes.length = t.busyTimes.length

/-- Claim C2 as stated, at given parameters: the reported `num_served`
equals the number of customers that completed service (recorded a busy
interval, i.e. released their agent) within the run. -/
def servedCompletedClaim (cap : Nat) (rate : Rat) (stream : Nat → Rat)
    (fuel : Nat) : Prop :=
  ∀ t, runSim cap rate stream fuel initState = .ok t →
    (computeMetrics cap t).num_served = t.busyTimes.length

/-- Claim C3 as stated, at given parameters: a non-positive capacity or
rate makes the program fail fast with a configuration error before any
replication starts. -/
def failFastClaim (rng : Nat → Nat → Rat) (cap : Nat) (rate : Rat)
    (fuel n : Nat) : Prop :=
  cap = 0 ∨ rate ≤ 0 → run_scenario rng cap rate fuel n = .error .configError

/-- Claim C9 as stated, at given parameters: all recorded waits are
nonnegative and every recorded busy interval satisfies
`service_end_time > service_start_time` strictly. -/
def strictServiceClaim (cap : Nat) (rate : Rat) (stream : Nat → Rat)
    (fuel : Nat) : Prop :=
  ∀ t, runSim cap rate stream fuel initState = .ok t →
    (∀ w ∈ t.waitTimes, 0 ≤ w) ∧ ∀ p ∈ t.busyTimes, p.1 < p.2


/-! ## Properties of the event queue -/

theorem popMin_eq_none : ∀ {l : List Ev}, popMin l = none → l = [] := by
  intro l h
  cases l with
  | nil => rfl
  | cons e es =>
    unfold popMin at h
    cases hes : popMin es with
    | none => rw [hes] at h; simp at h
    | some pr => rw [hes] at h; by_cases hb : evBefore e pr.1 <;> simp [hb] at h

/-- The popped event together with the remaining queue is a permutation
of the original queue. -/
theorem popMin_perm : ∀ {l : List Ev} {e : Ev} {rest : List Ev},
    popMin l = some (e, rest) → l.Perm (e :: rest) := by
  intro l
  induction l with
  | nil => intro e rest h; simp [popMin] at h
  | cons a as ih =>
    intro e rest h
    unfold popMin at h
    cases hes : popMin as with
    | none =>
      rw [hes] at h
      have : as = [] := popMin_eq_none hes
      subst this
      simp at h
      obtain ⟨he, hr⟩ := h
      subst he; subst hr
      exact List.Perm.refl _
    | some pr =>
      obtain ⟨m, r⟩ := pr
      rw [hes] at h
      dsimp only at h
      by_cases hb : evBefore a m
      · rw [if_pos hb] at h
        simp at h
        obtain ⟨he, hr⟩ := h
        subst he; subst hr
        exact List.Perm.refl _
      · rw [if_neg hb] at h
        simp at h
        obtain ⟨he, hr⟩ := h
        subst he; subst hr
        have hp := ih hes
        exact (hp.cons a).trans (List.Perm.swap m a r)

/-- The popped event is earliest: every remaining event is at the same
time or later. -/
theorem popMin_min : ∀ {l : List Ev} {e : Ev} {rest : List Ev},
    popMin l = some (e, rest) → ∀ x ∈ rest, e.time ≤ x.time := by
  intro l
  induction l with
  | nil => intro e rest h; simp [popMin] at h
  | cons a as ih =>
    intro e rest h x hx
    unfold popMin at h
    cases hes : popMin as with
    | none =>
      rw [hes] at h
      simp at h
      obtain ⟨he, hr⟩ := h
      subst he; subst hr
      simp at hx
    | some pr =>
      obtain ⟨m, r⟩ := pr
      rw [hes] at h
      dsimp only at h
      by_cases hb : evBefore a m
      · rw [if_pos hb] at h
        simp at h
        have ham : a.time ≤ m.time := by
          rcases hb with hlt | ⟨heq, _⟩
          · exact le_of_lt hlt
          · exact le_of_eq heq
        obtain ⟨he, hr⟩ := h
        subst he; subst hr
        have hmem : x ∈ m :: r := ((popMin_perm hes).mem_iff).1 hx
        rcases List.mem_cons.1 hmem with hxm | hxr
        · rw [hxm]; exact ham
        · exact ham.trans (ih hes x hxr)
      · rw [if_neg hb] at h
        simp at h
        obtain ⟨he, hr⟩ := h
        subst he; subst hr
        have hma : m.time ≤ a.time := by
          unfold evBefore at hb
          push_neg at hb
          exact hb.1
        rcases List.mem_cons.1 hx with hxa | hxr
        · rw [hxa]; exact hma
        · exact ih hes x hxr

/-! ## Shape lemmas for the elementary operations -/

theorem countSE_append (l1 l2 : List Ev) :
    countSE (l1 ++ l2) = countSE l1 + countSE l2 := by
  simp [countSE, List.countP_append]

theorem timeout_ok {d : Rat} (k : EvKind) (s : St) (hd : 0 ≤ d) :
    timeout d k s = .ok (schedule (s.now + d) k s) := by
  unfold timeout
  rw [if_neg (not_lt.2 hd)]

/-- With a service rate of `1/5` and a nonnegative draw, starting a
service always succeeds and schedules the end-of-service event. -/
theorem beginService_ok {stream : Nat → Rat} (cid : Nat) (s : St)
    (hx : 0 ≤ stream s.drawIdx) :
    beginService stream cid s =
      .ok (schedule (s.now + stream s.drawIdx / (1 / MEAN_SERVICE_MINUTES))
        (.serviceEnd cid s.now) { s with drawIdx := s.drawIdx + 1 }) := by
  have h5 : (1 / MEAN_SERVICE_MINUTES : Rat) ≠ 0 := by
    norm_num [MEAN_SERVICE_MINUTES]
  have hd : (0 : Rat) ≤ stream s.drawIdx / (1 / MEAN_SERVICE_MINUTES) := by
    apply div_nonneg hx
    norm_num [MEAN_SERVICE_MINUTES]
  unfold beginService expovariate
  rw [if_neg h5]
  dsimp only
  rw [timeout_ok _ _ hd]

/-- With a positive arrival rate, a nonnegative draw and the clock still
before the horizon, the `setup` loop body draws an inter-arrival gap and
schedules its own resumption. -/
theorem setupTail_ok {rate : Rat} {stream : Nat → Rat} {s : St}
    (hr : 0 < rate) (hx : 0 ≤ stream s.drawIdx) (hnow : s.now < horizonMinutes) :
    setupTail rate stream s =
      .ok (schedule (s.now + stream s.drawIdx / (rate / 60)) .setupWake
        { s with drawIdx := s.drawIdx + 1 }) := by
  have h60 : (rate / 60 : Rat) ≠ 0 := by
    apply div_ne_zero (ne_of_gt hr)
    norm_num
  have hd : (0 : Rat) ≤ stream s.drawIdx / (rate / 60) := by
    apply div_nonneg hx
    positivity
  unfold setupTail expovariate
  rw [if_pos hnow, if_neg h60]
  dsimp only
  rw [timeout_ok _ _ hd]

/-- `beginService` never touches the clock, the pool, the wait queue or
the metric lists: it only consumes a draw and schedules an event. -/
theorem beginService_frame {stream : Nat → Rat} {cid : Nat} {s v : St}
    (h : beginService stream cid s = .ok v) :
    v.now = s.now ∧ v.inUse = s.inUse ∧ v.waitQ = s.waitQ ∧
    v.waitTimes = s.waitTimes ∧ v.busyTimes = s.busyTimes ∧
    v.totalBusyTime = s.totalBusyTime ∧ v.lastEventTime = s.lastEventTime := by
  unfold beginService expovariate at h
  by_cases h5 : (1 / MEAN_SERVICE_MINUTES : Rat) = 0
  · rw [if_pos h5] at h
    simp at h
  · rw [if_neg h5] at h
    dsimp only at h
    unfold timeout at h
    by_cases hd : stream s.drawIdx / (1 / MEAN_SERVICE_MINUTES) < 0
    · rw [if_pos hd] at h
      simp at h
    · rw [if_neg hd] at h
      simp only [Except.ok.injEq] at h
      subst h
      simp [schedule]

/-- `setupTail` never touches the clock, the pool, the wait queue or the
metric lists either. -/
theorem setupTail_frame {rate : Rat} {stream : Nat → Rat} {s v : St}
    (h : setupTail rate stream s = .ok v) :
    v.now = s.now ∧ v.inUse = s.inUse ∧ v.waitQ = s.waitQ ∧
    v.waitTimes = s.waitTimes ∧ v.busyTimes = s.busyTimes ∧
    v.totalBusyTime = s.totalBusyTime ∧ v.lastEventTime = s.lastEventTime ∧
    v.nextId = s.nextId := by
  unfold setupTail expovariate at h
  by_cases hnow : s.now < horizonMinutes
  · rw [if_pos hnow] at h
    by_cases h60 : (rate / 60 : Rat) = 0
    · rw [if_pos h60] at h
      simp at h
    · rw [if_neg h60] at h
      dsimp only at h
      unfold timeout at h
      by_cases hd : stream s.drawIdx / (rate / 60) < 0
      · rw [if_pos hd] at h
        simp at h
      · rw [if_neg hd] at h
        simp only [Except.ok.injEq] at h
        subst h
        simp [schedule]
  · rw [if_neg hnow] at h
    simp only [Except.ok.injEq] at h
    subst h
    exact ⟨rfl, rfl, rfl, rfl, rfl, rfl, rfl, rfl⟩

/-! ## Case analysis of one scheduler step -/

theorem simStep_done_cases {cap : Nat} {rate : Rat} {stream : Nat → Rat}
    {s v : St} (h : simStep cap rate stream s = .ok (.done v)) :
    (popMin s.queue = none ∧ v = s) ∨
    (∃ e rest, popMin s.queue = some (e, rest) ∧ horizonMinutes ≤ e.time ∧
      v = { s with now := horizonMinutes }) := by
  unfold simStep at h
  cases hpop : popMin s.queue with
  | none =>
    rw [hpop] at h
    simp only [Except.ok.injEq, StepRes.done.injEq] at h
    exact Or.inl ⟨rfl, h.symm⟩
  | some pr =>
    obtain ⟨e, rest⟩ := pr
    rw [hpop] at h
    dsimp only at h
    by_cases h480 : horizonMinutes ≤ e.time
    · rw [if_pos h480] at h
      simp only [Except.ok.injEq, StepRes.done.injEq] at h
      exact Or.inr ⟨e, rest, rfl, h480, h.symm⟩
    · rw [if_neg h480] at h
      cases hex : execEvent cap rate stream e { s with queue := rest } with
      | error err => rw [hex] at h; simp at h
      | ok u => rw [hex] at h; simp at h

theorem simStep_cont_cases {cap : Nat} {rate : Rat} {stream : Nat → Rat}
    {s u : St} (h : simStep cap rate stream s = .ok (.cont u)) :
    ∃ e rest, popMin s.queue = some (e, rest) ∧ e.time < horizonMinutes ∧
      execEvent cap rate stream e { s with queue := rest } = .ok u := by
  unfold simStep at h
  cases hpop : popMin s.queue with
  | none => rw [hpop] at h; simp at h
  | some pr =>
    obtain ⟨e, rest⟩ := pr
    rw [hpop] at h
    dsimp only at h
    by_cases h480 : horizonMinutes ≤ e.time
    · rw [if_pos h480] at h; simp at h
    · rw [if_neg h480] at h
      cases hex : execEvent cap rate stream e { s with queue := rest } with
      | error err => rw [hex] at h; simp at h
      | ok w =>
        rw [hex] at h
        simp only [Except.ok.injEq, StepRes.cont.injEq] at h
        exact ⟨e, rest, rfl, lt_of_not_ge h480, by rw [hex, h]⟩

theorem horizonMinutes_pos : (0 : Rat) < horizonMinutes := by
  norm_num [horizonMinutes, SIM_HOURS]

/-- The initial state satisfies the invariant. -/
theorem simInv_init (cap : Nat) (stream : Nat → Rat) :
    SimInv cap stream initState := by
  refine ⟨⟨?_, ?_, ?_, ?_, ?_, ?_, ?_, ?_, ?_, ?_, ?_, ?_⟩, ?_⟩
  · exact Nat.zero_le cap
  · intro h; simp [initState] at h
  · simp [initState]
  · simp [initState, countSE, isSE]
  · simp [initState]
  · exact le_of_lt horizonMinutes_pos
  · intro e he cid sb hk
    simp [initState] at he
    subst he
    simp at hk
  · intro w hw; simp [initState] at hw
  · intro w hw; simp [initState] at hw
  · intro p hp; simp [initState] at hp
  · simp [initState]
  · simp [initState]
  · intro e he
    simp [initState] at he
    subst he
    simp [initState]

/-! ## Preservation of the invariant, one event kind at a time -/

theorem exec_inv_setupFirst {cap : Nat} {rate : Rat} {stream : Nat → Rat}
    (hr : 0 < rate) (hs : ∀ i, 0 ≤ stream i) {s u : St} {e : Ev} {rest : List Ev}
    (hv : SimInv cap stream s) (hpop : popMin s.queue = some (e, rest))
    (hlt : e.time < horizonMinutes) (hek : e.kind = .setupFirst)
    (hex : execEvent cap rate stream e { s with queue := rest } = .ok u) :
    SimInv cap stream u := by
  have hperm := popMin_perm hpop
  have hmin := popMin_min hpop
  have hmem_e : e ∈ s.queue := hperm.mem_iff.2 (List.mem_cons_self e rest)
  have hrest : ∀ x ∈ rest, x ∈ s.queue := fun x hx =>
    hperm.mem_iff.2 (List.mem_cons_of_mem e hx)
  have hcount : countSE s.queue = countSE rest + (if isSE e.kind then 1 else 0) := by
    have hc := hperm.countP_eq (fun ev => isSE ev.kind)
    simpa [countSE, List.countP_cons] using hc
  have hnow_e : s.now ≤ e.time := hv.ev_future e hmem_e
  have hd0 : (0 : Rat) ≤ stream s.drawIdx / (rate / 60) :=
    div_nonneg (hs _) (by positivity)
  unfold execEvent at hex
  rw [hek] at hex
  dsimp only at hex
  rw [setupTail_ok hr (hs _) hlt] at hex
  simp only [Except.ok.injEq] at hex
  subst hex
  refine ⟨⟨?_, ?_, ?_, ?_, ?_, ?_, ?_, ?_, ?_, ?_, ?_, ?_⟩, ?_⟩
  · exact hv.inUse_le
  · exact fun h => hv.waitQ_full h
  · exact hv.count_eq
  · show s.inUse = countSE (rest ++ [⟨_, _, EvKind.setupWake⟩])
    rw [hek] at hcount
    simp [isSE] at hcount
    rw [countSE_append, hv.inUse_se, hcount]
    rfl
  · exact le_trans hv.now_nonneg hnow_e
  · exact le_of_lt hlt
  · intro x hx cid sb hk
    simp only [schedule, List.mem_append, List.mem_singleton] at hx
    rcases hx with hx | hx
    · exact hv.se_shape x (hrest x hx) cid sb hk
    · subst hx; simp at hk
  · intro w hw
    obtain ⟨h1, h2⟩ := hv.waitQ_arr w hw
    exact ⟨h1, h2.trans hnow_e⟩
  · exact hv.waits_nonneg
  · exact hv.busy_shape
  · exact hv.tbt_zero
  · exact hv.lastEv_zero
  · intro x hx
    simp only [schedule, List.mem_append, List.mem_singleton] at hx
    rcases hx with hx | hx
    · exact hmin x hx
    · subst hx
      exact le_add_of_nonneg_right hd0

theorem exec_inv_setupWake {cap : Nat} {rate : Rat} {stream : Nat → Rat}
    (hr : 0 < rate) (hs : ∀ i, 0 ≤ stream i) {s u : St} {e : Ev} {rest : List Ev}
    (hv : SimInv cap stream s) (hpop : popMin s.queue = some (e, rest))
    (hlt : e.time < horizonMinutes) (hek : e.kind = .setupWake)
    (hex : execEvent cap rate stream e { s with queue := rest } = .ok u) :
    SimInv cap stream u := by
  have hperm := popMin_perm hpop
  have hmin := popMin_min hpop
  have hmem_e : e ∈ s.queue := hperm.mem_iff.2 (List.mem_cons_self e rest)
  have hrest : ∀ x ∈ rest, x ∈ s.queue := fun x hx =>
    hperm.mem_iff.2 (List.mem_cons_of_mem e hx)
  have hcount : countSE s.queue = countSE rest + (if isSE e.kind then 1 else 0) := by
    have hc := hperm.countP_eq (fun ev => isSE ev.kind)
    simpa [countSE, List.countP_cons] using hc
  have hnow_e : s.now ≤ e.time := hv.ev_future e hmem_e
  have hd0 : (0 : Rat) ≤ stream s.drawIdx / (rate / 60) :=
    div_nonneg (hs _) (by positivity)
  unfold execEvent at hex
  rw [hek] at hex
  dsimp only at hex
  rw [setupTail_ok hr (hs _) hlt] at hex
  simp only [Except.ok.injEq] at hex
  subst hex
  refine ⟨⟨?_, ?_, ?_, ?_, ?_, ?_, ?_, ?_, ?_, ?_, ?_, ?_⟩, ?_⟩
  · exact hv.inUse_le
  · exact fun h => hv.waitQ_full h
  · exact hv.count_eq
  · show s.inUse = countSE ((rest ++ [⟨_, _, EvKind.custStart _⟩]) ++
      [⟨_, _, EvKind.setupWake⟩])
    rw [hek] at hcount
    simp [isSE] at hcount
    rw [countSE_append, countSE_append, hv.inUse_se, hcount]
    rfl
  · exact le_trans hv.now_nonneg hnow_e
  · exact le_of_lt hlt
  · intro x hx cid sb hk
    simp only [schedule, List.mem_append, List.mem_singleton] at hx
    rcases hx with (hx | hx) | hx
    · exact hv.se_shape x (hrest x hx) cid sb hk
    · subst hx; simp at hk
    · subst hx; simp at hk
  · intro w hw
    obtain ⟨h1, h2⟩ := hv.waitQ_arr w hw
    exact ⟨h1, h2.trans hnow_e⟩
  · exact hv.waits_nonneg
  · exact hv.busy_shape
  · exact hv.tbt_zero
  · exact hv.lastEv_zero
  · intro x hx
    simp only [schedule, List.mem_append, List.mem_singleton] at hx
    rcases hx with (hx | hx) | hx
    · exact hmin x hx
    · subst hx; exact le_refl _
    · subst hx; exact le_add_of_nonneg_right hd0

theorem exec_inv_custStart {cap : Nat} {rate : Rat} {stream : Nat → Rat}
    (hs : ∀ i, 0 ≤ stream i) {s u : St} {e : Ev} {rest : List Ev} {cid : Nat}
    (hv : SimInv cap stream s) (hpop : popMin s.queue = some (e, rest))
    (hlt : e.time < horizonMinutes) (hek : e.kind = .custStart cid)
    (hex : execEvent cap rate stream e { s with queue := rest } = .ok u) :
    SimInv cap stream u := by
  have hperm := popMin_perm hpop
  have hmin := popMin_min hpop
  have hmem_e : e ∈ s.queue := hperm.mem_iff.2 (List.mem_cons_self e rest)
  have hrest : ∀ x ∈ rest, x ∈ s.queue := fun x hx =>
    hperm.mem_iff.2 (List.mem_cons_of_mem e hx)
  have hcount : countSE s.queue = countSE rest + (if isSE e.kind then 1 else 0) := by
    have hc := hperm.countP_eq (fun ev => isSE ev.kind)
    simpa [countSE, List.countP_cons] using hc
  have hnow_e : s.now ≤ e.time := hv.ev_future e hmem_e
  have h0e : (0 : Rat) ≤ e.time := le_trans hv.now_nonneg hnow_e
  have hd5 : (0 : Rat) ≤ stream s.drawIdx / (1 / MEAN_SERVICE_MINUTES) :=
    div_nonneg (hs _) (by norm_num [MEAN_SERVICE_MINUTES])
  rw [hek] at hcount
  simp [isSE] at hcount
  unfold execEvent at hex
  rw [hek] at hex
  dsimp only at hex
  split at hex
  case isTrue hcap =>
    rw [beginService_ok cid _ (hs _)] at hex
    simp only [Except.ok.injEq] at hex
    subst hex
    refine ⟨⟨?_, ?_, ?_, ?_, ?_, ?_, ?_, ?_, ?_, ?_, ?_, ?_⟩, ?_⟩
    · exact hcap
    · intro hne
      exfalso
      have hfull : s.inUse = cap := hv.waitQ_full hne
      have hcap' : s.inUse < cap := hcap
      omega
    · show (s.waitTimes ++ [_]).length = s.busyTimes.length + (s.inUse + 1)
      have hc := hv.count_eq
      simp [List.length_append]
      omega
    · show s.inUse + 1 = countSE (rest ++ [⟨_, _, EvKind.serviceEnd cid _⟩])
      rw [countSE_append, hv.inUse_se, hcount]
      rfl
    · exact h0e
    · exact le_of_lt hlt
    · intro x hx cid' sb hk
      simp only [schedule, List.mem_append, List.mem_singleton] at hx
      rcases hx with hx | hx
      · exact hv.se_shape x (hrest x hx) cid' sb hk
      · subst hx
        simp only [EvKind.serviceEnd.injEq] at hk
        obtain ⟨-, h2⟩ := hk
        subst h2
        exact ⟨h0e, ⟨s.drawIdx, rfl⟩⟩
    · intro w hw
      obtain ⟨h1, h2⟩ := hv.waitQ_arr w hw
      exact ⟨h1, h2.trans hnow_e⟩
    · intro w hw
      simp only [schedule, List.mem_append, List.mem_singleton] at hw
      rcases hw with hw | hw
      · exact hv.waits_nonneg w hw
      · subst hw; simp
    · exact hv.busy_shape
    · exact hv.tbt_zero
    · exact hv.lastEv_zero
    · intro x hx
      simp only [schedule, List.mem_append, List.mem_singleton] at hx
      rcases hx with hx | hx
      · exact hmin x hx
      · subst hx
        exact le_add_of_nonneg_right hd5
  case isFalse hncap =>
    simp only [Except.ok.injEq] at hex
    subst hex
    have hge : cap ≤ s.inUse := le_of_not_lt hncap
    refine ⟨⟨?_, ?_, ?_, ?_, ?_, ?_, ?_, ?_, ?_, ?_, ?_, ?_⟩, ?_⟩
    · exact hv.inUse_le
    · intro _
      show s.inUse = cap
      have h1 := hv.inUse_le
      omega
    · exact hv.count_eq
    · show s.inUse = countSE rest
      rw [hv.inUse_se, hcount]
    · exact h0e
    · exact le_of_lt hlt
    · intro x hx cid' sb hk
      exact hv.se_shape x (hrest x hx) cid' sb hk
    · intro w hw
      simp only [List.mem_append, List.mem_singleton] at hw
      rcases hw with hw | hw
      · obtain ⟨h1, h2⟩ := hv.waitQ_arr w hw
        exact ⟨h1, h2.trans hnow_e⟩
      · subst hw
        exact ⟨h0e, le_refl _⟩
    · exact hv.waits_nonneg
    · exact hv.busy_shape
    · exact hv.tbt_zero
    · exact hv.lastEv_zero
    · intro x hx
      exact hmin x hx

theorem exec_inv_serviceEnd {cap : Nat} {rate : Rat} {stream : Nat → Rat}
    (hs : ∀ i, 0 ≤ stream i) {s u : St} {e : Ev} {rest : List Ev} {cid : Nat}
    {sb : Rat}
    (hv : SimInv cap stream s) (hpop : popMin s.queue = some (e, rest))
    (hlt : e.time < horizonMinutes) (hek : e.kind = .serviceEnd cid sb)
    (hex : execEvent cap rate stream e { s with queue := rest } = .ok u) :
    SimInv cap stream u := by
  have hperm := popMin_perm hpop
  have hmin := popMin_min hpop
  have hmem_e : e ∈ s.queue := hperm.mem_iff.2 (List.mem_cons_self e rest)
  have hrest : ∀ x ∈ rest, x ∈ s.queue := fun x hx =>
    hperm.mem_iff.2 (List.mem_cons_of_mem e hx)
  have hcount : countSE s.queue = countSE rest + (if isSE e.kind then 1 else 0) := by
    have hc := hperm.countP_eq (fun ev => isSE ev.kind)
    simpa [countSE, List.countP_cons] using hc
  have hnow_e : s.now ≤ e.time := hv.ev_future e hmem_e
  have h0e : (0 : Rat) ≤ e.time := le_trans hv.now_nonneg hnow_e
  have hd5 : (0 : Rat) ≤ stream s.drawIdx / (1 / MEAN_SERVICE_MINUTES) :=
    div_nonneg (hs _) (by norm_num [MEAN_SERVICE_MINUTES])
  obtain ⟨hsb0, hske⟩ := hv.se_shape e hmem_e cid sb hek
  rw [hek] at hcount
  simp [isSE] at hcount
  have hSE : s.inUse = countSE rest + 1 := by rw [hv.inUse_se, hcount]
  unfold execEvent at hex
  rw [hek] at hex
  dsimp only at hex
  cases hwq : s.waitQ with
  | nil =>
    rw [hwq] at hex
    dsimp only at hex
    simp only [Except.ok.injEq] at hex
    subst hex
    refine ⟨⟨?_, ?_, ?_, ?_, ?_, ?_, ?_, ?_, ?_, ?_, ?_, ?_⟩, ?_⟩
    · show s.inUse - 1 ≤ cap
      have h1 := hv.inUse_le
      omega
    · intro hne
      exact absurd rfl hne
    · show s.waitTimes.length = (s.busyTimes ++ [_]).length + (s.inUse - 1)
      have hc := hv.count_eq
      simp [List.length_append]
      omega
    · show s.inUse - 1 = countSE rest
      omega
    · exact h0e
    · exact le_of_lt hlt
    · intro x hx cid' sb' hk
      exact hv.se_shape x (hrest x hx) cid' sb' hk
    · intro w hw
      simp at hw
    · exact hv.waits_nonneg
    · intro p hp
      simp only [List.mem_append, List.mem_singleton] at hp
      rcases hp with hp | hp
      · exact hv.busy_shape p hp
      · subst hp
        exact ⟨hsb0, hlt, hske⟩
    · exact hv.tbt_zero
    · exact hv.lastEv_zero
    · intro x hx
      exact hmin x hx
  | cons w ws =>
    rw [hwq] at hex
    dsimp only at hex
    rw [beginService_ok w.id _ (hs _)] at hex
    simp only [Except.ok.injEq] at hex
    subst hex
    have hwmem : w ∈ s.waitQ := by rw [hwq]; exact List.mem_cons_self _ _
    obtain ⟨hwa0, hwan⟩ := hv.waitQ_arr w hwmem
    have hfull : s.inUse = cap := hv.waitQ_full (by rw [hwq]; simp)
    refine ⟨⟨?_, ?_, ?_, ?_, ?_, ?_, ?_, ?_, ?_, ?_, ?_, ?_⟩, ?_⟩
    · exact hv.inUse_le
    · intro _
      exact hfull
    · show (s.waitTimes ++ [_]).length = (s.busyTimes ++ [_]).length + s.inUse
      have hc := hv.count_eq
      simp [List.length_append]
      omega
    · show s.inUse = countSE (rest ++ [⟨_, _, EvKind.serviceEnd w.id _⟩])
      rw [countSE_append, hSE]
      rfl
    · exact h0e
    · exact le_of_lt hlt
    · intro x hx cid' sb' hk
      simp only [schedule, List.mem_append, List.mem_singleton] at hx
      rcases hx with hx | hx
      · exact hv.se_shape x (hrest x hx) cid' sb' hk
      · subst hx
        simp only [EvKind.serviceEnd.injEq] at hk
        obtain ⟨-, h2⟩ := hk
        subst h2
        exact ⟨h0e, ⟨s.drawIdx, rfl⟩⟩
    · intro w' hw'
      have hw'' : w' ∈ s.waitQ := by
        rw [hwq]
        exact List.mem_cons_of_mem _ hw'
      obtain ⟨h1, h2⟩ := hv.waitQ_arr w' hw''
      exact ⟨h1, h2.trans hnow_e⟩
    · intro x hx
      simp only [schedule, List.mem_append, List.mem_singleton] at hx
      rcases hx with hx | hx
      · exact hv.waits_nonneg x hx
      · subst hx
        exact sub_nonneg.2 (hwan.trans hnow_e)
    · intro p hp
      simp only [schedule, List.mem_append, List.mem_singleton] at hp
      rcases hp with hp | hp
      · exact hv.busy_shape p hp
      · subst hp
        exact ⟨hsb0, hlt, hske⟩
    · exact hv.tbt_zero
    · exact hv.lastEv_zero
    · intro x hx
      simp only [schedule, List.mem_append, List.mem_singleton] at hx
      rcases hx with hx | hx
      · exact hmin x hx
      · subst hx
        exact le_add_of_nonneg_right hd5

/-- One continuing scheduler step preserves the invariant. -/
theorem simStep_inv {cap : Nat} {rate : Rat} {stream : Nat → Rat}
    (hr : 0 < rate) (hs : ∀ i, 0 ≤ stream i) {s u : St}
    (hv : SimInv cap stream s)
    (h : simStep cap rate stream s = .ok (.cont u)) : SimInv cap stream u := by
  obtain ⟨e, rest, hpop, hlt, hex⟩ := simStep_cont_cases h
  cases hek : e.kind with
  | setupFirst => exact exec_inv_setupFirst hr hs hv hpop hlt hek hex
  | setupWake => exact exec_inv_setupWake hr hs hv hpop hlt hek hex
  | custStart cid => exact exec_inv_custStart hs hv hpop hlt hek hex
  | serviceEnd cid sb => exact exec_inv_serviceEnd hs hv hpop hlt hek hex

/-- The stop event only moves the clock to the horizon, so the core
invariant survives into the final state. -/
theorem simStep_done_core {cap : Nat} {rate : Rat} {stream : Nat → Rat}
    {s v : St} (hv : SimInv cap stream s)
    (h : simStep cap rate stream s = .ok (.done v)) : SimInvCore cap stream v := by
  rcases simStep_done_cases h with ⟨-, rfl⟩ | ⟨e, rest, -, -, rfl⟩
  · exact hv.toSimInvCore
  · refine ⟨hv.inUse_le, hv.waitQ_full, hv.count_eq, hv.inUse_se,
      le_of_lt horizonMinutes_pos, le_refl _, hv.se_shape, ?_,
      hv.waits_nonneg, hv.busy_shape, hv.tbt_zero, hv.lastEv_zero⟩
    intro w hw
    obtain ⟨h1, h2⟩ := hv.waitQ_arr w hw
    exact ⟨h1, h2.trans hv.now_le⟩

/-- The final state of a completed run satisfies the core invariant. -/
theorem runSim_core {cap : Nat} {rate : Rat} {stream : Nat → Rat}
    (hr : 0 < rate) (hs : ∀ i, 0 ≤ stream i) :
    ∀ (fuel : Nat) {s t : St}, SimInv cap stream s →
      runSim cap rate stream fuel s = .ok t → SimInvCore cap stream t := by
  intro fuel
  induction fuel with
  | zero => intro s t _ h; simp [runSim] at h
  | succ n ih =>
    intro s t hv h
    unfold runSim at h
    cases hstep : simStep cap rate stream s with
    | error err => rw [hstep] at h; simp at h
    | ok r =>
      rw [hstep] at h
      cases r with
      | done v =>
        dsimp only at h
        simp only [Except.ok.injEq] at h
        subst h
        exact simStep_done_core hv hstep
      | cont w =>
        dsimp only at h
        exact ih (simStep_inv hr hs hv hstep) h

/-- The invariant holds at every state reachable from an invariant
state. -/
theorem reaches_inv {cap : Nat} {rate : Rat} {stream : Nat → Rat}
    (hr : 0 < rate) (hs : ∀ i, 0 ≤ stream i) {s t : St}
    (h : Reaches cap rate stream s t) (hv : SimInv cap stream s) :
    SimInv cap stream t := by
  induction h with
  | refl => exact hv
  | tail _ hstep ih => exact simStep_inv hr hs ih hstep

/-- Every continuing scheduler step respects the FIFO discipline. -/
theorem simStep_fifo {cap : Nat} {rate : Rat} {stream : Nat → Rat} {s u : St}
    (h : simStep cap rate stream s = .ok (.cont u)) : fifoStep s u := by
  obtain ⟨e, rest, hpop, hlt, hex⟩ := simStep_cont_cases h
  unfold execEvent at hex
  cases hek : e.kind with
  | setupFirst =>
    rw [hek] at hex
    dsimp only at hex
    obtain ⟨-, -, hwq, -, -, -, -, -⟩ := setupTail_frame hex
    exact Or.inl hwq
  | setupWake =>
    rw [hek] at hex
    dsimp only at hex
    obtain ⟨-, -, hwq, -, -, -, -, -⟩ := setupTail_frame hex
    exact Or.inl hwq
  | custStart cid =>
    rw [hek] at hex
    dsimp only at hex
    split at hex
    case isTrue =>
      obtain ⟨-, -, hwq, -, -, -, -⟩ := beginService_frame hex
      exact Or.inl hwq
    case isFalse =>
      simp only [Except.ok.injEq] at hex
      subst hex
      exact Or.inr (Or.inl ⟨⟨cid, e.time⟩, rfl⟩)
  | serviceEnd cid sb =>
    rw [hek] at hex
    dsimp only at hex
    cases hwq : s.waitQ with
    | nil =>
      rw [hwq] at hex
      dsimp only at hex
      simp only [Except.ok.injEq] at hex
      subst hex
      exact Or.inl hwq.symm
    | cons w ws =>
      rw [hwq] at hex
      dsimp only at hex
      obtain ⟨hnow, -, hwq2, hwt, -, -, -⟩ := beginService_frame hex
      refine Or.inr (Or.inr ⟨w, ?_, ?_⟩)
      · rw [hwq, hwq2]
      · rw [hwt, hnow]

/-- No scheduler step ever writes `total_busy_time` or
`last_event_time`. -/
theorem simStep_frame {cap : Nat} {rate : Rat} {stream : Nat → Rat} {s : St} :
    ∀ {r : StepRes}, simStep cap rate stream s = .ok r →
      (∀ u, r = .cont u →
        u.totalBusyTime = s.totalBusyTime ∧ u.lastEventTime = s.lastEventTime) ∧
      (∀ v, r = .done v →
        v.totalBusyTime = s.totalBusyTime ∧ v.lastEventTime = s.lastEventTime) := by
  intro r h
  constructor
  · intro u hu
    subst hu
    obtain ⟨e, rest, hpop, hlt, hex⟩ := simStep_cont_cases h
    unfold execEvent at hex
    cases hek : e.kind with
    | setupFirst =>
      rw [hek] at hex
      dsimp only at hex
      obtain ⟨-, -, -, -, -, h1, h2, -⟩ := setupTail_frame hex
      exact ⟨h1, h2⟩
    | setupWake =>
      rw [hek] at hex
      dsimp only at hex
      obtain ⟨-, -, -, -, -, h1, h2, -⟩ := setupTail_frame hex
      exact ⟨h1, h2⟩
    | custStart cid =>
      rw [hek] at hex
      dsimp only at hex
      split at hex
      case isTrue =>
        obtain ⟨-, -, -, -, -, h1, h2⟩ := beginService_frame hex
        exact ⟨h1, h2⟩
      case isFalse =>
        simp only [Except.ok.injEq] at hex
        subst hex
        exact ⟨rfl, rfl⟩
    | serviceEnd cid sb =>
      rw [hek] at hex
      dsimp only at hex
      cases hwq : s.waitQ with
      | nil =>
        rw [hwq] at hex
        dsimp only at hex
        simp only [Except.ok.injEq] at hex
        subst hex
        exact ⟨rfl, rfl⟩
      | cons w ws =>
        rw [hwq] at hex
        dsimp only at hex
        obtain ⟨-, -, -, -, -, h1, h2⟩ := beginService_frame hex
        exact ⟨h1, h2⟩
  · intro v hv
    subst hv
    rcases simStep_done_cases h with ⟨-, rfl⟩ | ⟨e, rest, -, -, rfl⟩ <;>
      exact ⟨rfl, rfl⟩

/-- Across a whole run, `total_busy_time` and `last_event_time` keep the
values they were given at construction. -/
theorem runSim_frame {cap : Nat} {rate : Rat} {stream : Nat → Rat} :
    ∀ (fuel : Nat) {s t : St}, runSim cap rate stream fuel s = .ok t →
      t.totalBusyTime = s.totalBusyTime ∧ t.lastEventTime = s.lastEventTime := by
  intro fuel
  induction fuel with
  | zero => intro s t h; simp [runSim] at h
  | succ n ih =>
    intro s t h
    unfold runSim at h
    cases hstep : simStep cap rate stream s with
    | error err => rw [hstep] at h; simp at h
    | ok r =>
      rw [hstep] at h
      cases r with
      | done v =>
        dsimp only at h
        simp only [Except.ok.injEq] at h
        subst h
        exact (simStep_frame hstep).2 _ rfl
      | cont w =>
        dsimp only at h
        obtain ⟨h1, h2⟩ := (simStep_frame hstep).1 w rfl
        obtain ⟨h3, h4⟩ := ih h
        exact ⟨h3.trans h1, h4.trans h2⟩

/-- When a run returns normally, it is because either no event was
pending or the earliest pending event was at or past the horizon — and
in the latter case that event is still in the final queue, unexecuted. -/
theorem runSim_stop {cap : Nat} {rate : Rat} {stream : Nat → Rat} :
    ∀ (fuel : Nat) {s t : St}, runSim cap rate stream fuel s = .ok t →
      popMin t.queue = none ∨
      ∃ e rest, popMin t.queue = some (e, rest) ∧ horizonMinutes ≤ e.time := by
  intro fuel
  induction fuel with
  | zero => intro s t h; simp [runSim] at h
  | succ n ih =>
    intro s t h
    unfold runSim at h
    cases hstep : simStep cap rate stream s with
    | error err => rw [hstep] at h; simp at h
    | ok r =>
      rw [hstep] at h
      cases r with
      | done v =>
        dsimp only at h
        simp only [Except.ok.injEq] at h
        subst h
        rcases simStep_done_cases hstep with ⟨hpop, rfl⟩ | ⟨e, rest, hpop, h480, rfl⟩
        · exact Or.inl hpop
        · exact Or.inr ⟨e, rest, hpop, h480⟩
      | cont w =>
        dsimp only at h
        exact ih h

set_option maxHeartbeats 1000000 in
theorem cutoffStream_run :
    runSim 1 60 cutoffStream 5 initState = .ok cutoffFinal := by
  norm_num [runSim, simStep, popMin, execEvent, setupTail, beginService, timeout,
    schedule, expovariate, initState, cutoffStream, cutoffFinal, evBefore,
    horizonMinutes, SIM_HOURS, MEAN_SERVICE_MINUTES]

set_option maxHeartbeats 1000000 in
theorem richStream_run :
    runSim 1 60 richStream 8 initState = .ok richFinal := by
  norm_num [runSim, simStep, popMin, execEvent, setupTail, beginService, timeout,
    schedule, expovariate, initState, richStream, richFinal, evBefore,
    horizonMinutes, SIM_HOURS, MEAN_SERVICE_MINUTES]

set_option maxHeartbeats 1000000 in
theorem zeroServiceStream_run :
    runSim 1 60 zeroServiceStream 8 initState = .ok zeroServiceFinal := by
  norm_num [runSim, simStep, popMin, execEvent, setupTail, beginService, timeout,
    schedule, expovariate, initState, zeroServiceStream, zeroServiceFinal,
    evBefore, horizonMinutes, SIM_HOURS, MEAN_SERVICE_MINUTES]

set_option maxHeartbeats 4000000 in
theorem probeReps_run :
    runReps (fun _ _ => 1000) 1 60 5 (List.range 30) =
      .ok (List.replicate 30 probeRep) := by
  norm_num [runReps, runReplication, computeMetrics, utilizationOfBusy, listMean,
    runSim, simStep, popMin, execEvent, setupTail, beginService, timeout,
    schedule, expovariate, initState, evBefore,
    horizonMinutes, SIM_HOURS, MEAN_SERVICE_MINUTES, probeRep,
    List.range_succ_eq_map, List.replicate]

theorem richStream_nonneg : ∀ i, 0 ≤ richStream i := by
  intro i
  simp only [richStream]
  split_ifs <;> norm_num

theorem richStream_pos : ∀ i, 0 < richStream i := by
  intro i
  simp only [richStream]
  split_ifs <;> norm_num

/-! ## The claims -/

/-- Claim C1 is false on the code: in the `cutoffStream` replication the
customer granted an agent at minute 479 is still in service at the
horizon; the run stops with its end-of-service event (and the
generator's wake-up) pending, and its busy interval is never recorded. -/
theorem claim1_counterexample : ¬ horizonCompletionClaim 1 60 cutoffStream 5 := by
  intro h
  have h2 := h cutoffFinal cutoffStream_run
  have h3 : cutoffFinal.queue = [] := h2.1
  simp [cutoffFinal] at h3

/-- Claim C1 (amended): `env.run(until=480)` stops the scheduler as soon
as the earliest pending event is at or past the horizon (or when no
event is pending), so in-service customers are cut off rather than run
to completion: every recorded service completion happened strictly
before the horizon, completions never exceed service starts, and the
run's final queue either is empty or still holds an unexecuted event at
or past the horizon. -/
theorem claim1_horizon_cutoff (cap : Nat) (rate : Rat) (stream : Nat → Rat)
    (fuel : Nat) (t : St) (hr : 0 < rate) (hs : ∀ i, 0 ≤ stream i)
    (h : runSim cap rate stream fuel initState = .ok t) :
    (∀ p ∈ t.busyTimes, p.2 < horizonMinutes) ∧
    t.busyTimes.length ≤ t.waitTimes.length ∧
    (popMin t.queue = none ∨
      ∃ e rest, popMin t.queue = some (e, rest) ∧ horizonMinutes ≤ e.time) := by
  have hcore := runSim_core hr hs fuel (simInv_init cap stream) h
  refine ⟨fun p hp => (hcore.busy_shape p hp).2.1, ?_, runSim_stop fuel h⟩
  have hc := hcore.count_eq
  omega

theorem claim1_witness :
    (∀ p ∈ richFinal.busyTimes, p.2 < horizonMinutes) ∧
    richFinal.busyTimes.length ≤ richFinal.waitTimes.length ∧
    (popMin richFinal.queue = none ∨
      ∃ e rest, popMin richFinal.queue = some (e, rest) ∧
        horizonMinutes ≤ e.time) :=
  claim1_horizon_cutoff 1 60 richStream 8 richFinal (by norm_num)
    richStream_nonneg richStream_run

/-- Claim C2 is false on the code: in the `cutoffStream` replication one
customer entered service before the horizon but never completed, yet
`num_served = len(wait_times) = 1` while zero customers reached
completion. -/
theorem claim2_counterexample : ¬ servedCompletedClaim 1 60 cutoffStream 5 := by
  intro h
  have h2 := h cutoffFinal cutoffStream_run
  simp [computeMetrics, cutoffFinal] at h2

/-- Claim C2 (amended): `num_served = len(wait_times)` counts the
customers that were granted an agent (entered service) within the run —
equal to the completed customers plus those still holding an agent when
the run stops, not to the completed ones alone. -/
theorem claim2_num_served_entered (cap : Nat) (rate : Rat) (stream : Nat → Rat)
    (fuel : Nat) (t : St) (hc : cap ≠ 0) (hr : 0 < rate)
    (hs : ∀ i, 0 ≤ stream i)
    (h : runSim cap rate stream fuel initState = .ok t) :
    runReplication cap rate stream fuel = .ok (computeMetrics cap t) ∧
    (computeMetrics cap t).num_served = t.waitTimes.length ∧
    t.waitTimes.length = t.busyTimes.length + t.inUse := by
  have hcore := runSim_core hr hs fuel (simInv_init cap stream) h
  refine ⟨?_, rfl, hcore.count_eq⟩
  unfold runReplication
  rw [if_neg hc, h]

theorem claim2_witness :
    runReplication 1 60 richStream 8 = .ok (computeMetrics 1 richFinal) ∧
    (computeMetrics 1 richFinal).num_served = richFinal.waitTimes.length ∧
    richFinal.waitTimes.length = richFinal.busyTimes.length + richFinal.inUse :=
  claim2_num_served_entered 1 60 richStream 8 richFinal (by norm_num)
    (by norm_num) richStream_nonneg richStream_run

/-- Claim C3 is false on the code: with `num_agents = 0` the scenario
does not fail with an up-front configuration error — the `ValueError`
from `simpy.Resource` is raised inside replication 0, after the loop has
already begun and reseeded the generator. -/
theorem claim3_counterexample : ¬ failFastClaim (fun _ _ => 0) 0 60 1 30 := by
  intro h
  have h2 := h (Or.inl rfl)
  have h3 : run_scenario (fun _ _ => 0) 0 60 1 30 = .error .valueErrorCapacity := by
    norm_num [run_scenario, runReps, runReplication, List.range_succ_eq_map]
  rw [h3] at h2
  simp at h2

/-- Claim C3 (amended): the code performs no up-front validation.  A
zero capacity raises `ValueError` from the `simpy.Resource` constructor
and a zero rate raises `ZeroDivisionError` from the first exponential
draw — both from within the first replication of the loop, not before
it, and never as a distinguished configuration error. -/
theorem claim3_error_in_first_replication (rng : Nat → Nat → Rat) (cap : Nat)
    (rate : Rat) (fuel n : Nat) (hn : 1 ≤ n) (hf : 1 ≤ fuel) :
    (cap = 0 → run_scenario rng cap rate fuel n = .error .valueErrorCapacity) ∧
    (cap ≠ 0 → rate = 0 →
      run_scenario rng cap rate fuel n = .error .zeroDivisionError) := by
  obtain ⟨m, rfl⟩ : ∃ m, n = m + 1 := ⟨n - 1, by omega⟩
  constructor
  · intro hc
    subst hc
    unfold run_scenario
    rw [List.range_succ_eq_map]
    unfold runReps runReplication
    norm_num
  · intro hc h0
    subst h0
    obtain ⟨f, rfl⟩ : ∃ f, fuel = f + 1 := ⟨fuel - 1, by omega⟩
    have hzero : runSim cap 0 (rng (RANDOM_SEED + 0)) (f + 1) initState =
        .error .zeroDivisionError := by
      have hstep : simStep cap 0 (rng (RANDOM_SEED + 0)) initState =
          .error .zeroDivisionError := by
        norm_num [simStep, popMin, execEvent, setupTail, expovariate, initState,
          evBefore, horizonMinutes, SIM_HOURS]
      unfold runSim
      rw [hstep]
    unfold run_scenario
    rw [List.range_succ_eq_map]
    unfold runReps runReplication
    rw [if_neg hc, hzero]

theorem claim3_witness :
    ((0 : Nat) = 0 →
      run_scenario (fun _ _ => 0) 0 60 1 30 = .error .valueErrorCapacity) ∧
    ((0 : Nat) ≠ 0 → (60 : Rat) = 0 →
      run_scenario (fun _ _ => 0) 0 60 1 30 = .error .zeroDivisionError) :=
  claim3_error_in_first_replication (fun _ _ => 0) 0 60 1 30 (by norm_num)
    (by norm_num)

/-- Claim C4: the simulation is a pure function of the scenario
parameters and the seeded draw stream — replications with extensionally
equal streams (same seed implies the same draw sequence) produce
identical `ReplicationResult`s, and running the whole aggregation twice
on identical inputs yields identical aggregates. -/
theorem claim4_determinism (cap : Nat) (rate : Rat) (fuel : Nat)
    (stream stream' : Nat → Rat) (h : ∀ i, stream i = stream' i) :
    runReplication cap rate stream fuel = runReplication cap rate stream' fuel ∧
    (∀ rng n, run_scenario rng cap rate fuel n = run_scenario rng cap rate fuel n) := by
  have hst : stream = stream' := funext h
  subst hst
  exact ⟨rfl, fun _ _ => rfl⟩

theorem claim4_witness :
    runReplication 1 60 probeStream 5 = runReplication 1 60 (fun _ => 1000) 5 ∧
    (∀ rng n, run_scenario rng 1 60 5 n = run_scenario rng 1 60 5 n) :=
  claim4_determinism 1 60 5 probeStream (fun _ => 1000) (fun _ => rfl)

/-- Claim C5: at every reachable state of a replication the pool has at
most `capacity` holders and a non-empty wait queue forces a full pool;
and every scheduler step treats the wait queue in FIFO fashion — it is
untouched, extended at the tail, or its head (exactly) is granted, with
that head's wait recorded. -/
theorem claim5_pool_invariant (cap : Nat) (rate : Rat) (stream : Nat → Rat)
    (hr : 0 < rate) (hs : ∀ i, 0 ≤ stream i) :
    (∀ t, Reaches cap rate stream initState t →
      t.inUse ≤ cap ∧ (t.waitQ ≠ [] → t.inUse = cap)) ∧
    (∀ t u, Reaches cap rate stream initState t →
      simStep cap rate stream t = .ok (.cont u) → fifoStep t u) := by
  constructor
  · intro t ht
    have hv := reaches_inv hr hs ht (simInv_init cap stream)
    exact ⟨hv.inUse_le, hv.waitQ_full⟩
  · intro t u _ hstep
    exact simStep_fifo hstep

theorem claim5_witness :
    (∀ t, Reaches 1 60 richStream initState t →
      t.inUse ≤ 1 ∧ (t.waitQ ≠ [] → t.inUse = 1)) ∧
    (∀ t u, Reaches 1 60 richStream initState t →
      simStep 1 60 richStream t = .ok (.cont u) → fifoStep t u) :=
  claim5_pool_invariant 1 60 richStream (by norm_num) richStream_nonneg

/-- Claim C6: `avg_wait` is the arithmetic mean of the recorded
`wait_times` (it recovers the sum when multiplied by the count), and an
empty sample degrades to the defined value 0 instead of a
division-by-zero. -/
theorem claim6_avg_wait (cap : Nat) (rate : Rat) (stream : Nat → Rat)
    (fuel : Nat) (t : St) (hc : cap ≠ 0)
    (h : runSim cap rate stream fuel initState = .ok t) :
    runReplication cap rate stream fuel = .ok (computeMetrics cap t) ∧
    (t.waitTimes = [] → (computeMetrics cap t).avg_wait = 0) ∧
    (t.waitTimes ≠ [] →
      (computeMetrics cap t).avg_wait = t.waitTimes.sum / (t.waitTimes.length : Rat) ∧
      (computeMetrics cap t).avg_wait * (t.waitTimes.length : Rat) = t.waitTimes.sum) := by
  refine ⟨?_, ?_, ?_⟩
  · unfold runReplication
    rw [if_neg hc, h]
  · intro he
    simp [computeMetrics, he]
  · intro hne
    have hlen : t.waitTimes.length ≠ 0 := by
      intro h0
      exact hne (List.length_eq_zero.1 h0)
    have hemp : t.waitTimes.isEmpty = false := by
      cases hw : t.waitTimes with
      | nil => exact absurd hw hne
      | cons a l => rfl
    have hcast : (t.waitTimes.length : Rat) ≠ 0 := Nat.cast_ne_zero.2 hlen
    constructor
    · simp [computeMetrics, hemp, listMean]
    · simp only [computeMetrics, hemp, listMean, Bool.false_eq_true, if_false]
      exact div_mul_cancel₀ _ hcast

theorem claim6_witness :
    runReplication 1 60 richStream 8 = .ok (computeMetrics 1 richFinal) ∧
    (richFinal.waitTimes = [] → (computeMetrics 1 richFinal).avg_wait = 0) ∧
    (richFinal.waitTimes ≠ [] →
      (computeMetrics 1 richFinal).avg_wait =
        richFinal.waitTimes.sum / (richFinal.waitTimes.length : Rat) ∧
      (computeMetrics 1 richFinal).avg_wait * (richFinal.waitTimes.length : Rat) =
        richFinal.waitTimes.sum) :=
  claim6_avg_wait 1 60 richStream 8 richFinal (by norm_num) richStream_run

/-- Claim C7: `avg_queue_len` equals the sum of the recorded wait
durations divided by the horizon in hours — `sum(wait_times) / 8` (the
guard of line 73 returns 0 on an empty sample, which agrees with the
formula since an empty sum is 0). -/
theorem claim7_avg_queue_len (cap : Nat) (rate : Rat) (stream : Nat → Rat)
    (fuel : Nat) (t : St) (hc : cap ≠ 0)
    (h : runSim cap rate stream fuel initState = .ok t) :
    runReplication cap rate stream fuel = .ok (computeMetrics cap t) ∧
    (computeMetrics cap t).avg_queue_len = t.waitTimes.sum / SIM_HOURS ∧
    SIM_HOURS = 8 := by
  refine ⟨?_, ?_, rfl⟩
  · unfold runReplication
    rw [if_neg hc, h]
  · cases hw : t.waitTimes with
    | nil => simp [computeMetrics, hw]
    | cons a l => simp [computeMetrics, hw]

theorem claim7_witness :
    runReplication 1 60 richStream 8 = .ok (computeMetrics 1 richFinal) ∧
    (computeMetrics 1 richFinal).avg_queue_len =
      richFinal.waitTimes.sum / SIM_HOURS ∧
    SIM_HOURS = 8 :=
  claim7_avg_queue_len 1 60 richStream 8 richFinal (by norm_num) richStream_run

/-- A successful replication loop pairs each replication index `r` with
the result of the run seeded by `RANDOM_SEED + r`. -/
theorem runReps_forall₂ (rng : Nat → Nat → Rat) (cap : Nat) (rate : Rat)
    (fuel : Nat) :
    ∀ (rs : List Nat) (l : List RepResult),
      runReps rng cap rate fuel rs = .ok l →
      List.Forall₂
        (fun r v => runReplication cap rate (rng (RANDOM_SEED + r)) fuel = .ok v)
        rs l := by
  intro rs
  induction rs with
  | nil =>
    intro l h
    unfold runReps at h
    simp only [Except.ok.injEq] at h
    subst h
    exact List.Forall₂.nil
  | cons r rs ih =>
    intro l h
    unfold runReps at h
    cases hrep : runReplication cap rate (rng (RANDOM_SEED + r)) fuel with
    | error err => rw [hrep] at h; simp at h
    | ok v =>
      rw [hrep] at h
      dsimp only at h
      cases hrest : runReps rng cap rate fuel rs with
      | error err => rw [hrest] at h; simp at h
      | ok l2 =>
        rw [hrest] at h
        dsimp only at h
        simp only [Except.ok.injEq] at h
        subst h
        exact List.Forall₂.cons hrep (ih l2 hrest)

/-- Claim C8: the scenario runs `REPLICATIONS = 30` replications, the
`r`-th seeded with `RANDOM_SEED + r`; for each of the four metrics the
aggregate reports the arithmetic mean (sum over 30) and the population
variance with divisor `N = 30` (not `N - 1`), whose square root is the
`statistics.pstdev` the program prints. -/
theorem claim8_aggregator (rng : Nat → Nat → Rat) (cap : Nat) (rate : Rat)
    (fuel : Nat) (l : List RepResult)
    (h : runReps rng cap rate fuel (List.range REPLICATIONS) = .ok l) :
    l.length = 30 ∧
    List.Forall₂
      (fun r v => runReplication cap rate (rng (RANDOM_SEED + r)) fuel = .ok v)
      (List.range REPLICATIONS) l ∧
    ∃ A, run_scenario rng cap rate fuel REPLICATIONS = .ok A ∧
      A.avg_wait_mean = (l.map (·.avg_wait)).sum / 30 ∧
      A.avg_wait_pvar = ((l.map (·.avg_wait)).map
        (fun x => (x - (l.map (·.avg_wait)).sum / 30) ^ 2)).sum / 30 ∧
      A.utilization_mean = (l.map (·.utilization)).sum / 30 ∧
      A.utilization_pvar = ((l.map (·.utilization)).map
        (fun x => (x - (l.map (·.utilization)).sum / 30) ^ 2)).sum / 30 ∧
      A.num_served_mean = (l.map (fun v => (v.num_served : Rat))).sum / 30 ∧
      A.num_served_pvar = ((l.map (fun v => (v.num_served : Rat))).map
        (fun x => (x - (l.map (fun v => (v.num_served : Rat))).sum / 30) ^ 2)).sum / 30 ∧
      A.avg_queue_len_mean = (l.map (·.avg_queue_len)).sum / 30 ∧
      A.avg_queue_len_pvar = ((l.map (·.avg_queue_len)).map
        (fun x => (x - (l.map (·.avg_queue_len)).sum / 30) ^ 2)).sum / 30 := by
  have hf2 := runReps_forall₂ rng cap rate fuel (List.range REPLICATIONS) l h
  have hlen : l.length = 30 := by
    have hl := hf2.length_eq
    simp [REPLICATIONS] at hl
    exact hl.symm
  have hkey : ∀ f : RepResult → Rat, listMean (l.map f) = (l.map f).sum / 30 := by
    intro f
    unfold listMean
    rw [List.length_map, hlen]
    norm_num
  have hkey2 : ∀ f : RepResult → Rat, pvariance (l.map f) =
      ((l.map f).map (fun x => (x - (l.map f).sum / 30) ^ 2)).sum / 30 := by
    intro f
    unfold pvariance
    rw [hkey f, List.length_map, hlen]
    norm_num
  refine ⟨hlen, hf2, ?_⟩
  have hne : l.isEmpty = false := by
    cases hw : l with
    | nil => rw [hw] at hlen; simp at hlen
    | cons a as => rfl
  unfold run_scenario
  rw [h]
  dsimp only
  unfold aggregate
  rw [if_neg (by simp [hne])]
  exact ⟨_, rfl, hkey _, hkey2 _, hkey _, hkey2 _, hkey _, hkey2 _, hkey _, hkey2 _⟩

theorem claim8_witness :
    (List.replicate 30 probeRep).length = 30 ∧
    List.Forall₂
      (fun r v => runReplication 1 60 ((fun _ _ => (1000 : Rat)) (RANDOM_SEED + r)) 5 = .ok v)
      (List.range REPLICATIONS) (List.replicate 30 probeRep) ∧
    ∃ A, run_scenario (fun _ _ => 1000) 1 60 5 REPLICATIONS = .ok A ∧
      A.avg_wait_mean = ((List.replicate 30 probeRep).map (·.avg_wait)).sum / 30 ∧
      A.avg_wait_pvar = (((List.replicate 30 probeRep).map (·.avg_wait)).map
        (fun x => (x - ((List.replicate 30 probeRep).map (·.avg_wait)).sum / 30) ^ 2)).sum / 30 ∧
      A.utilization_mean = ((List.replicate 30 probeRep).map (·.utilization)).sum / 30 ∧
      A.utilization_pvar = (((List.replicate 30 probeRep).map (·.utilization)).map
        (fun x => (x - ((List.replicate 30 probeRep).map (·.utilization)).sum / 30) ^ 2)).sum / 30 ∧
      A.num_served_mean = ((List.replicate 30 probeRep).map (fun v => (v.num_served : Rat))).sum / 30 ∧
      A.num_served_pvar = (((List.replicate 30 probeRep).map (fun v => (v.num_served : Rat))).map
        (fun x => (x - ((List.replicate 30 probeRep).map (fun v => (v.num_served : Rat))).sum / 30) ^ 2)).sum / 30 ∧
      A.avg_queue_len_mean = ((List.replicate 30 probeRep).map (·.avg_queue_len)).sum / 30 ∧
      A.avg_queue_len_pvar = (((List.replicate 30 probeRep).map (·.avg_queue_len)).map
        (fun x => (x - ((List.replicate 30 probeRep).map (·.avg_queue_len)).sum / 30) ^ 2)).sum / 30 :=
  claim8_aggregator (fun _ _ => 1000) 1 60 5 (List.replicate 30 probeRep)
    probeReps_run

/-- Claim C9 is false on the code: `random.expovariate` returns exactly
0 when the underlying `random()` yields 0.0, and then the recorded busy
interval starts and ends at the same instant — the `zeroServiceStream`
replication records the interval `(10, 10)`. -/
theorem claim9_counterexample : ¬ strictServiceClaim 1 60 zeroServiceStream 8 := by
  intro h
  have h2 := (h zeroServiceFinal zeroServiceStream_run).2 (10, 10)
    (by simp [zeroServiceFinal])
  exact absurd h2 (by norm_num)

/-- Claim C9 (amended): with the nonnegative draws `expovariate`
produces, every recorded wait is nonnegative and every busy interval
satisfies `service_start_time ≤ service_end_time`; the inequality is
strict whenever every service draw is positive (it degenerates to
equality exactly on a zero draw). -/
theorem claim9_service_intervals (cap : Nat) (rate : Rat) (stream : Nat → Rat)
    (fuel : Nat) (t : St) (hr : 0 < rate) (hs : ∀ i, 0 ≤ stream i)
    (h : runSim cap rate stream fuel initState = .ok t) :
    (∀ w ∈ t.waitTimes, 0 ≤ w) ∧
    (∀ p ∈ t.busyTimes, p.1 ≤ p.2) ∧
    ((∀ i, 0 < stream i) → ∀ p ∈ t.busyTimes, p.1 < p.2) := by
  have hcore := runSim_core hr hs fuel (simInv_init cap stream) h
  refine ⟨hcore.waits_nonneg, ?_, ?_⟩
  · intro p hp
    obtain ⟨-, -, k, hk⟩ := hcore.busy_shape p hp
    rw [hk]
    exact le_add_of_nonneg_right
      (div_nonneg (hs k) (by norm_num [MEAN_SERVICE_MINUTES]))
  · intro hpos p hp
    obtain ⟨-, -, k, hk⟩ := hcore.busy_shape p hp
    rw [hk]
    exact lt_add_of_pos_right _
      (div_pos (hpos k) (by norm_num [MEAN_SERVICE_MINUTES]))

theorem claim9_witness :
    (∀ w ∈ richFinal.waitTimes, 0 ≤ w) ∧
    (∀ p ∈ richFinal.busyTimes, p.1 ≤ p.2) ∧
    ((∀ i, 0 < richStream i) → ∀ p ∈ richFinal.busyTimes, p.1 < p.2) :=
  claim9_service_intervals 1 60 richStream 8 richFinal (by norm_num)
    richStream_nonneg richStream_run

/-- Claim C10: `total_busy_time` and `last_event_time` are written only
by the constructor (lines 31-32) — they stay 0 at every reachable state
and in the final state of every run — and the utilization metric is a
function of the `busy_times` list alone. -/
theorem claim10_frame_fields (cap : Nat) (rate : Rat) (stream : Nat → Rat) :
    (∀ t, Reaches cap rate stream initState t →
      t.totalBusyTime = 0 ∧ t.lastEventTime = 0) ∧
    (∀ fuel t, runSim cap rate stream fuel initState = .ok t →
      t.totalBusyTime = 0 ∧ t.lastEventTime = 0) ∧
    (∀ c u, (computeMetrics c u).utilization = utilizationOfBusy c u.busyTimes) := by
  refine ⟨?_, ?_, fun c u => rfl⟩
  · intro t ht
    induction ht with
    | refl => exact ⟨rfl, rfl⟩
    | tail _ hstep ih =>
      obtain ⟨h1, h2⟩ := (simStep_frame hstep).1 _ rfl
      exact ⟨h1.trans ih.1, h2.trans ih.2⟩
  · intro fuel t h
    obtain ⟨h1, h2⟩ := runSim_frame fuel h
    exact ⟨h1, h2⟩

theorem claim10_witness :
    (initState.totalBusyTime = 0 ∧ initState.lastEventTime = 0) ∧
    (richFinal.totalBusyTime = 0 ∧ richFinal.lastEventTime = 0) ∧
    (computeMetrics 1 richFinal).utilization =
      utilizationOfBusy 1 richFinal.busyTimes := by
  obtain ⟨hreach, hrun, hutil⟩ := claim10_frame_fields 1 60 richStream
  exact ⟨hreach initState (Reaches.refl initState),
    hrun 8 richFinal richStream_run, hutil 1 richFinal⟩

end CallCenterSim
